import Mathlib

/-!
Verification of the ClipBridge broadcast server (`clipbridge.py`).

The development shallowly embeds the core of the program:

* bytes are `Nat` values (0 ≤ b < 256 on the wire), byte strings are `List Nat`;
* a text (Python `str`) is a list of Unicode code points, `List Nat`;
* UTF-8 encoding/decoding is modelled executably (strict decoding, as Python's
  `bytes.decode("utf-8")`: overlong forms, surrogates and out-of-range values
  are rejected);
* the frame codec (`frame_text`, the decode loop of `_process_frames`),
  the broadcast routine `_broadcast`, the watcher tick of
  `_clipboard_watch_loop`, `queue_from_pc`, `_on_text_from_client` and the
  initial push of `_accept` are translated into pure functions over explicit
  state.
-/

namespace ClipBridge

/-- Wire message type byte for text frames (`MSG_TEXT = 0x01`). -/
def MSG_TEXT : Nat := 0x01

/-- Maximum payload size in bytes (`MAX_BYTES = 1_048_576`). -/
def MAX_BYTES : Nat := 1048576

/-- A text value (Python `str`): a list of Unicode code points. -/
abbrev Text := List Nat

/-- A UTF-8 continuation byte: `0x80 ≤ b < 0xC0`. -/
def isCont (b : Nat) : Bool := 0x80 ≤ b && b < 0xC0

/-- A Unicode scalar value: below the surrogate range or between it and
`0x110000`. -/
def isScalar (n : Nat) : Bool := n < 0xD800 || (0xE000 ≤ n && n < 0x110000)

/-- All code points of a text are Unicode scalar values (the code points a
Python `str` that `encode("utf-8")` accepts can hold). -/
def ValidText (t : Text) : Prop := ∀ n ∈ t, isScalar n = true

instance (t : Text) : Decidable (ValidText t) := List.decidableBAll _ t

/-- UTF-8 encoding of a single code point. -/
def encChar (n : Nat) : List Nat :=
  if n < 0x80 then [n]
  else if n < 0x800 then [0xC0 + n / 0x40, 0x80 + n % 0x40]
  else if n < 0x10000 then
    [0xE0 + n / 0x1000, 0x80 + n / 0x40 % 0x40, 0x80 + n % 0x40]
  else
    [0xF0 + n / 0x40000, 0x80 + n / 0x1000 % 0x40, 0x80 + n / 0x40 % 0x40,
     0x80 + n % 0x40]

/-- UTF-8 encoding of a text (`text.encode("utf-8")`). -/
def utf8Encode (t : Text) : List Nat := (t.map encChar).flatten

/-- Code point assembled from a 2-byte UTF-8 sequence. -/
def cp2 (b0 b1 : Nat) : Nat := (b0 - 0xC0) * 0x40 + (b1 - 0x80)

/-- Code point assembled from a 3-byte UTF-8 sequence. -/
def cp3 (b0 b1 b2 : Nat) : Nat :=
  (b0 - 0xE0) * 0x1000 + (b1 - 0x80) * 0x40 + (b2 - 0x80)

/-- Code point assembled from a 4-byte UTF-8 sequence. -/
def cp4 (b0 b1 b2 b3 : Nat) : Nat :=
  (b0 - 0xF0) * 0x40000 + (b1 - 0x80) * 0x1000 + (b2 - 0x80) * 0x40 +
    (b3 - 0x80)

/-- Strict UTF-8 decoding of one code point: returns the code point and the
remaining bytes, or `none` on malformed input (continuation byte in lead
position, overlong form, surrogate, value above `0x10FFFF`, truncation). -/
def decChar (bs : List Nat) : Option (Nat × List Nat) :=
  if bs.length < 1 then none
  else if bs.getD 0 0 < 0x80 then some (bs.getD 0 0, bs.drop 1)
  else if bs.getD 0 0 < 0xC2 then none
  else if bs.getD 0 0 < 0xE0 then
    if 2 ≤ bs.length ∧ isCont (bs.getD 1 0) = true then
      some (cp2 (bs.getD 0 0) (bs.getD 1 0), bs.drop 2)
    else none
  else if bs.getD 0 0 < 0xF0 then
    if 3 ≤ bs.length ∧ isCont (bs.getD 1 0) = true ∧
       isCont (bs.getD 2 0) = true then
      if cp3 (bs.getD 0 0) (bs.getD 1 0) (bs.getD 2 0) < 0x800 ∨
         (0xD800 ≤ cp3 (bs.getD 0 0) (bs.getD 1 0) (bs.getD 2 0) ∧
          cp3 (bs.getD 0 0) (bs.getD 1 0) (bs.getD 2 0) < 0xE000) then none
      else some (cp3 (bs.getD 0 0) (bs.getD 1 0) (bs.getD 2 0), bs.drop 3)
    else none
  else if bs.getD 0 0 < 0xF5 then
    if 4 ≤ bs.length ∧ isCont (bs.getD 1 0) = true ∧
       isCont (bs.getD 2 0) = true ∧ isCont (bs.getD 3 0) = true then
      if cp4 (bs.getD 0 0) (bs.getD 1 0) (bs.getD 2 0) (bs.getD 3 0)
           < 0x10000 ∨
         0x110000 ≤ cp4 (bs.getD 0 0) (bs.getD 1 0) (bs.getD 2 0)
           (bs.getD 3 0) then none
      else some (cp4 (bs.getD 0 0) (bs.getD 1 0) (bs.getD 2 0) (bs.getD 3 0),
                 bs.drop 4)
    else none
  else none

/-- Fuel-indexed strict UTF-8 decoding of a whole byte string. -/
def utf8DecodeAux : Nat → List Nat → Option Text
  | _, [] => some []
  | 0, _ :: _ => none
  | fuel + 1, b :: bs =>
    match decChar (b :: bs) with
    | none => none
    | some (n, rest) => (utf8DecodeAux fuel rest).map (n :: ·)

/-- Strict UTF-8 decoding of a whole byte string (`payload.decode("utf-8")`):
`none` models `UnicodeDecodeError`. -/
def utf8Decode (bs : List Nat) : Option Text := utf8DecodeAux bs.length bs

/-- Big-endian 32-bit value of four bytes. -/
def be32 (b0 b1 b2 b3 : Nat) : Nat := ((b0 * 256 + b1) * 256 + b2) * 256 + b3

/-- The Python integer produced by `struct.unpack(">I", buf[1:5])[0]`: the
unsigned big-endian 32-bit value, as a (mathematical) integer, mirroring
Python's unbounded `int`. -/
def parseLenInt (b0 b1 b2 b3 : Nat) : Int := (be32 b0 b1 b2 b3 : Nat)

/-- The four bytes of `struct.pack(">I", m)` (valid for `m < 2^32`). -/
def toBe32 (m : Nat) : List Nat :=
  [m / 0x1000000 % 256, m / 0x10000 % 256, m / 0x100 % 256, m % 256]

/-- `frame_text` (clipbridge.py:22-26): UTF-8-encode, raise
(`none`) if the payload exceeds `MAX_BYTES`, else emit type byte, 4-byte
big-endian length, payload. -/
def frame_text (text : Text) : Option (List Nat) :=
  if MAX_BYTES < (utf8Encode text).length then none
  else some (MSG_TEXT :: (toBe32 (utf8Encode text).length ++ utf8Encode text))

/-- Outcome of one iteration of the decode loop in `_process_frames`
(clipbridge.py:209-224): not enough buffered bytes yet, a fatal header
error, or one complete frame (its payload bytes and the number of bytes
removed from the front of the buffer). -/
inductive DecodeOne
  | needMore
  | badType
  | badLength
  | frame (payload : List Nat) (consumed : Nat)
deriving DecidableEq

/-- The header length field of a buffer, as read by `_process_frames`. -/
def hdrLen (buf : List Nat) : Int :=
  parseLenInt (buf.getD 1 0) (buf.getD 2 0) (buf.getD 3 0) (buf.getD 4 0)

/-- One iteration of the decode loop of `_process_frames`
(clipbridge.py:209-224): fewer than 5 bytes → wait; wrong type byte →
drop; `length < 0 or length > MAX_BYTES` → drop; incomplete payload →
wait; else extract `payload = buf[5:5+length]` and consume
`5 + length` bytes. -/
def tryDecodeOne (buf : List Nat) : DecodeOne :=
  if buf.length < 5 then .needMore
  else if buf.getD 0 0 ≠ MSG_TEXT then .badType
  else if hdrLen buf < 0 ∨ (MAX_BYTES : Int) < hdrLen buf then .badLength
  else if buf.length < 5 + (hdrLen buf).toNat then .needMore
  else .frame ((buf.drop 5).take (hdrLen buf).toNat) (5 + (hdrLen buf).toNat)

/-- Reason a connection is dropped by the frame decoder. -/
inductive DropReason
  | badType
  | badLength
deriving DecidableEq

/-- Result of running `_process_frames` on a receive buffer: the texts
delivered to `_on_text_from_client` in order, the bytes left in the buffer,
and whether the connection was dropped (and why). -/
structure ProcResult where
  texts : List Text
  rest : List Nat
  dropped : Option DropReason
deriving DecidableEq

/-- Fuel-indexed body of the `while True` loop of `_process_frames`
(clipbridge.py:207-230): decode frames repeatedly; a payload that fails
UTF-8 decoding is skipped (frame still consumed, connection kept); header
errors stop the loop and drop the connection, leaving the buffer as it
stands. The fuel only bounds iteration count; `buf.length` is always
enough. -/
def runFramesAux : Nat → List Nat → ProcResult
  | 0, buf => ⟨[], buf, none⟩
  | fuel + 1, buf =>
    match tryDecodeOne buf with
    | .needMore => ⟨[], buf, none⟩
    | .badType => ⟨[], buf, some .badType⟩
    | .badLength => ⟨[], buf, some .badLength⟩
    | .frame payload consumed =>
      match utf8Decode payload with
      | none => runFramesAux fuel (buf.drop consumed)
      | some t =>
        ⟨t :: (runFramesAux fuel (buf.drop consumed)).texts,
         (runFramesAux fuel (buf.drop consumed)).rest,
         (runFramesAux fuel (buf.drop consumed)).dropped⟩

/-- `_process_frames` run to completion on a buffer. -/
def runFrames (buf : List Nat) : ProcResult := runFramesAux buf.length buf

/-- The per-connection state the decoder touches: the receive buffer, the
texts delivered so far, and the latest loop outcome. -/
structure ConnState where
  buf : List Nat
  outs : List Text
  dropped : Option DropReason
deriving DecidableEq

/-- One invocation of the decoder on a connection after `chunk` arrives:
append the bytes to the buffer, run `_process_frames`
(clipbridge.py:203-205), accumulate delivered texts. -/
def feed (s : ConnState) (chunk : List Nat) : ConnState :=
  ⟨(runFrames (s.buf ++ chunk)).rest,
   s.outs ++ (runFrames (s.buf ++ chunk)).texts,
   (runFrames (s.buf ++ chunk)).dropped⟩

/-- A fresh connection: empty buffer, nothing delivered, alive. -/
def initConn : ConnState := ⟨[], [], none⟩

/-- Server state carried across events (fields of `BridgeServer`): the
registry of live connections (dict keys, here connection ids), the
watcher's `_last_polled`, the anti-echo `_last_sent_from_pc`, and the
pending-broadcast queue `to_broadcast` of already-encoded frames. -/
structure ServerState where
  clients : List Nat
  last_polled : Option Text
  last_sent_from_pc : Option Text
  to_broadcast : List (List Nat)
deriving DecidableEq

/-- Observable actions of the event-loop side, in program order. -/
inductive Ev
  | setLastSentFromPc (t : Text)
  | clipWrite (t : Text)
  | send (c : Nat) (bs : List Nat)
deriving DecidableEq

/-- The `for c in targets` loop of `_broadcast` (clipbridge.py:260-271)
over the snapshot `todo`, threading the live registry `reg`: the excluded
sender is skipped; a successful write (`wOk c = true`) records a delivery;
a failed or would-block write removes that connection from the registry
(`_drop_client`) and iteration continues. Returns the final registry and
the connections that received the payload, in iteration order. -/
def broadcastAux (ex : Option Nat) (wOk : Nat → Bool) :
    List Nat → List Nat → List Nat × List Nat
  | [], reg => (reg, [])
  | c :: todo, reg =>
    if some c = ex then broadcastAux ex wOk todo reg
    else if wOk c then
      ((broadcastAux ex wOk todo reg).1, c :: (broadcastAux ex wOk todo reg).2)
    else broadcastAux ex wOk todo (reg.erase c)

/-- `_broadcast` (clipbridge.py:256-273): snapshot the registry under the
lock, then iterate over the snapshot. -/
def broadcastRun (reg : List Nat) (ex : Option Nat) (wOk : Nat → Bool) :
    List Nat × List Nat :=
  broadcastAux ex wOk reg reg

/-- `queue_from_pc` (clipbridge.py:287-290): set `_last_sent_from_pc`,
then encode and enqueue. `frame_text` is evaluated after the field
assignment; if it raises (`none`), nothing is enqueued and the `Bool`
component is `false` (the exception escapes). -/
def queue_from_pc (s : ServerState) (text : Text) : ServerState × Bool :=
  match frame_text text with
  | none => ({ s with last_sent_from_pc := some text }, false)
  | some bs =>
    ({ s with last_sent_from_pc := some text,
              to_broadcast := s.to_broadcast ++ [bs] }, true)

/-- One tick of `_clipboard_watch_loop` (clipbridge.py:292-306), given the
result of `read_clipboard_text` (`none` = read not ok). The `Bool`
component is `false` when the tick raised (the watcher thread dies). -/
def clipboard_watch_tick (s : ServerState) (read : Option Text) :
    ServerState × Bool :=
  match read with
  | none => (s, true)
  | some txt =>
    if s.last_polled ≠ some txt then
      if some txt ≠ s.last_sent_from_pc then
        if txt ≠ [] then
          if (queue_from_pc s txt).2 then
            ({ (queue_from_pc s txt).1 with last_polled := some txt }, true)
          else ((queue_from_pc s txt).1, false)
        else ({ s with last_polled := some txt }, true)
      else ({ s with last_polled := some txt }, true)
    else (s, true)

/-- `_on_text_from_client` (clipbridge.py:232-240): set
`_last_sent_from_pc` to the received text, invoke the clipboard write,
then broadcast the re-encoded frame to every connection except the sender.
Returns the state (`none` if `frame_text` raised, which only an
over-long re-encoding could cause) and the ordered event trace. -/
def on_text_from_client (wOk : Nat → Bool) (s : ServerState) (sender : Nat)
    (text : Text) : Option ServerState × List Ev :=
  match frame_text text with
  | none => (none, [Ev.setLastSentFromPc text, Ev.clipWrite text])
  | some bs =>
    (some { s with last_sent_from_pc := some text,
                   clients := (broadcastRun s.clients (some sender) wOk).1 },
     [Ev.setLastSentFromPc text, Ev.clipWrite text] ++
       (broadcastRun s.clients (some sender) wOk).2.map (fun c => Ev.send c bs))

/-- What `_accept` (clipbridge.py:172-182) does about the initial
clipboard push to a brand-new connection. -/
inductive PushAction
  | nothing
  | send (bs : List Nat)
  | dropNew
deriving DecidableEq

/-- The initial clipboard push of `_accept` (clipbridge.py:172-182): read
the clipboard; if the read succeeded and the text is non-empty, send the
encoded frame to the new connection only; an encode or send failure drops
the new connection; empty or failed reads push nothing. -/
def initial_push (read : Option Text) (sendOk : Bool) : PushAction :=
  match read with
  | none => .nothing
  | some txt =>
    if txt ≠ [] then
      match frame_text txt with
      | none => .dropNew
      | some bs => if sendOk then .send bs else .dropNew
    else .nothing

theorem decChar_length {bs : List Nat} {n : Nat} {rest : List Nat}
    (h : decChar bs = some (n, rest)) : rest.length < bs.length := by
  unfold decChar at h
  repeat' split at h
  all_goals
    first
      | · simp only [Option.some.injEq, Prod.mk.injEq] at h
          obtain ⟨-, rfl⟩ := h
          simp only [List.length_drop]
          omega
      | simp at h

theorem utf8DecodeAux_fuel :
    ∀ (f1 f2 : Nat) (bs : List Nat), bs.length ≤ f1 → bs.length ≤ f2 →
      utf8DecodeAux f1 bs = utf8DecodeAux f2 bs := by
  intro f1
  induction f1 with
  | zero =>
    intro f2 bs h1 _
    have : bs = [] := List.length_eq_zero.mp (Nat.le_zero.mp h1)
    subst this
    cases f2 <;> rfl
  | succ f1 ih =>
    intro f2 bs h1 h2
    match bs with
    | [] => cases f2 <;> rfl
    | b :: tl =>
      match f2 with
      | 0 => simp at h2
      | g + 1 =>
        show utf8DecodeAux (f1 + 1) (b :: tl) = utf8DecodeAux (g + 1) (b :: tl)
        rcases hd : decChar (b :: tl) with - | ⟨n, r⟩
        · simp only [utf8DecodeAux, hd]
        · have hr := decChar_length hd
          simp only [List.length_cons] at hr h1 h2
          simp only [utf8DecodeAux, hd]
          rw [ih g r (by omega) (by omega)]

theorem utf8Decode_cons {bs : List Nat} {n : Nat} {rest : List Nat}
    (h : decChar bs = some (n, rest)) :
    utf8Decode bs = (utf8Decode rest).map (n :: ·) := by
  match bs with
  | [] => simp [decChar] at h
  | b :: tl =>
    have hr := decChar_length h
    simp only [List.length_cons] at hr
    show utf8DecodeAux (tl.length + 1) (b :: tl) = _
    simp only [utf8DecodeAux, h]
    rw [utf8DecodeAux_fuel tl.length rest.length rest (by omega) (by omega)]
    rfl

theorem encChar_ne_nil (n : Nat) : encChar n ≠ [] := by
  unfold encChar
  repeat' split
  all_goals simp

theorem isCont_iff (b : Nat) : isCont b = true ↔ 0x80 ≤ b ∧ b < 0xC0 := by
  simp [isCont]

/-- Decoding inverts encoding on a single scalar code point, with any
trailing bytes preserved. -/
theorem decChar_encChar (n : Nat) (rest : List Nat) (h : isScalar n = true) :
    decChar (encChar n ++ rest) = some (n, rest) := by
  simp only [isScalar, Bool.or_eq_true, decide_eq_true_eq, Bool.and_eq_true] at h
  unfold encChar
  by_cases h1 : n < 0x80
  · rw [if_pos h1]
    simp only [List.cons_append, List.nil_append]
    unfold decChar
    simp only [List.length_cons, List.getD_cons_zero, List.drop_succ_cons,
      List.drop_zero]
    rw [if_neg (by omega), if_pos h1]
  · rw [if_neg h1]
    by_cases h2 : n < 0x800
    · rw [if_pos h2]
      simp only [List.cons_append, List.nil_append]
      unfold decChar
      simp only [List.length_cons, List.getD_cons_zero, List.getD_cons_succ,
        List.drop_succ_cons, List.drop_zero]
      rw [if_neg (by omega), if_neg (by omega), if_neg (by omega),
        if_pos (by omega),
        if_pos ⟨by omega, (isCont_iff _).mpr (by omega)⟩]
      simp only [Option.some.injEq, Prod.mk.injEq, cp2, and_true]
      omega
    · rw [if_neg h2]
      by_cases h3 : n < 0x10000
      · rw [if_pos h3]
        simp only [List.cons_append, List.nil_append]
        unfold decChar
        simp only [List.length_cons, List.getD_cons_zero, List.getD_cons_succ,
          List.drop_succ_cons, List.drop_zero]
        rw [if_neg (by omega), if_neg (by omega), if_neg (by omega),
          if_neg (by omega), if_pos (by omega),
          if_pos ⟨by omega, (isCont_iff _).mpr (by omega),
            (isCont_iff _).mpr (by omega)⟩,
          if_neg (by simp only [cp3]; omega)]
        simp only [Option.some.injEq, Prod.mk.injEq, cp3, and_true]
        omega
      · rw [if_neg h3]
        have hn4 : n < 0x110000 := by omega
        simp only [List.cons_append, List.nil_append]
        unfold decChar
        simp only [List.length_cons, List.getD_cons_zero, List.getD_cons_succ,
          List.drop_succ_cons, List.drop_zero]
        rw [if_neg (by omega), if_neg (by omega), if_neg (by omega),
          if_neg (by omega), if_neg (by omega), if_pos (by omega),
          if_pos ⟨by omega, (isCont_iff _).mpr (by omega),
            (isCont_iff _).mpr (by omega), (isCont_iff _).mpr (by omega)⟩,
          if_neg (by simp only [cp4]; omega)]
        simp only [Option.some.injEq, Prod.mk.injEq, cp4, and_true]
        omega

/-- UTF-8 round trip: decoding the encoding of a valid text gives the text
back. -/
theorem utf8Decode_utf8Encode (t : Text) (hv : ValidText t) :
    utf8Decode (utf8Encode t) = some t := by
  induction t with
  | nil => rfl
  | cons n tl ih =>
    have hs : isScalar n = true := hv n (List.mem_cons_self n tl)
    have hv' : ValidText tl := fun m hm => hv m (List.mem_cons_of_mem n hm)
    have henc : utf8Encode (n :: tl) = encChar n ++ utf8Encode tl := by
      simp [utf8Encode]
    rw [henc]
    rw [utf8Decode_cons (decChar_encChar n (utf8Encode tl) hs), ih hv']
    rfl

theorem be32_toBe32 (m : Nat) (h : m < 4294967296) :
    be32 (m / 0x1000000 % 256) (m / 0x10000 % 256) (m / 0x100 % 256)
      (m % 256) = m := by
  unfold be32
  omega

theorem tryDecodeOne_frame_bounds {buf p : List Nat} {k : Nat}
    (h : tryDecodeOne buf = .frame p k) : 5 ≤ k ∧ k ≤ buf.length := by
  unfold tryDecodeOne at h
  repeat' split at h
  all_goals first
    | · simp only [DecodeOne.frame.injEq] at h
        obtain ⟨-, rfl⟩ := h
        omega
    | simp at h

theorem tryDecodeOne_append_frame {buf p : List Nat} {k : Nat}
    (chunk : List Nat) (h : tryDecodeOne buf = .frame p k) :
    tryDecodeOne (buf ++ chunk) = .frame p k := by
  unfold tryDecodeOne at h ⊢
  by_cases h5 : buf.length < 5
  · rw [if_pos h5] at h
    simp at h
  · rw [if_neg h5] at h
    rw [if_neg (show ¬ (buf ++ chunk).length < 5 by
      simp only [List.length_append]; omega)]
    have hg : ∀ i : Nat, i < 5 → (buf ++ chunk).getD i 0 = buf.getD i 0 :=
      fun i hi => List.getD_append buf chunk 0 i (by omega)
    have hhdr : hdrLen (buf ++ chunk) = hdrLen buf := by
      unfold hdrLen
      rw [hg 1 (by omega), hg 2 (by omega), hg 3 (by omega), hg 4 (by omega)]
    rw [hg 0 (by omega), hhdr]
    by_cases ht : buf.getD 0 0 ≠ MSG_TEXT
    · rw [if_pos ht] at h
      simp at h
    · rw [if_neg ht] at h ⊢
      by_cases hl : hdrLen buf < 0 ∨ (MAX_BYTES : Int) < hdrLen buf
      · rw [if_pos hl] at h
        simp at h
      · rw [if_neg hl] at h ⊢
        by_cases hc : buf.length < 5 + (hdrLen buf).toNat
        · rw [if_pos hc] at h
          simp at h
        · rw [if_neg hc] at h
          rw [if_neg (show ¬ (buf ++ chunk).length < 5 + (hdrLen buf).toNat
            by simp only [List.length_append]; omega)]
          simp only [DecodeOne.frame.injEq] at h ⊢
          obtain ⟨rfl, rfl⟩ := h
          refine ⟨?_, rfl⟩
          rw [List.drop_append_of_le_length (by omega),
            List.take_append_of_le_length (by
              simp only [List.length_drop]; omega)]

theorem runFramesAux_fuel :
    ∀ (f1 f2 : Nat) (buf : List Nat), buf.length ≤ f1 → buf.length ≤ f2 →
      runFramesAux f1 buf = runFramesAux f2 buf := by
  intro f1
  induction f1 with
  | zero =>
    intro f2 buf h1 _
    have : buf = [] := List.length_eq_zero.mp (Nat.le_zero.mp h1)
    subst this
    cases f2 <;> rfl
  | succ f1 ih =>
    intro f2 buf h1 h2
    match f2 with
    | 0 =>
      have : buf = [] := List.length_eq_zero.mp (Nat.le_zero.mp h2)
      subst this
      rfl
    | g + 1 =>
      rcases hd : tryDecodeOne buf with - | - | - | ⟨p, k⟩ <;>
        simp only [runFramesAux, hd]
      have hb := tryDecodeOne_frame_bounds hd
      have hlen : (buf.drop k).length ≤ f1 ∧ (buf.drop k).length ≤ g := by
        simp only [List.length_drop]
        omega
      simp only [ih g (buf.drop k) hlen.1 hlen.2]

/-- Unfolding equation for `runFrames`: one decode-loop iteration. -/
theorem runFrames_eq (buf : List Nat) :
    runFrames buf =
      match tryDecodeOne buf with
      | .needMore => ⟨[], buf, none⟩
      | .badType => ⟨[], buf, some .badType⟩
      | .badLength => ⟨[], buf, some .badLength⟩
      | .frame payload consumed =>
        match utf8Decode payload with
        | none => runFrames (buf.drop consumed)
        | some t =>
          ⟨t :: (runFrames (buf.drop consumed)).texts,
           (runFrames (buf.drop consumed)).rest,
           (runFrames (buf.drop consumed)).dropped⟩ := by
  rcases hl : buf.length with - | m
  · have : buf = [] := List.length_eq_zero.mp hl
    subst this
    rfl
  · show runFramesAux buf.length buf = _
    rw [hl]
    rcases hd : tryDecodeOne buf with - | - | - | ⟨p, k⟩ <;>
      simp only [runFramesAux, hd]
    have hb := tryDecodeOne_frame_bounds hd
    have haux : runFramesAux m (buf.drop k) = runFrames (buf.drop k) := by
      apply runFramesAux_fuel
      · simp only [List.length_drop]
        omega
      · exact le_refl _
    simp only [haux]

theorem runFrames_not_frame (buf : List Nat)
    (h : ∀ p k, tryDecodeOne buf ≠ .frame p k) :
    (runFrames buf).texts = [] ∧ (runFrames buf).rest = buf := by
  rw [runFrames_eq buf]
  rcases hd : tryDecodeOne buf with - | - | - | ⟨p, k⟩
  · exact ⟨rfl, rfl⟩
  · exact ⟨rfl, rfl⟩
  · exact ⟨rfl, rfl⟩
  · exact absurd hd (h p k)

/-- Key decomposition: running the decode loop on `buf ++ chunk` is the
same as running it on `buf`, then running it again on the leftover bytes
with `chunk` appended. -/
theorem runFrames_append (buf chunk : List Nat) :
    runFrames (buf ++ chunk) =
      ⟨(runFrames buf).texts ++
         (runFrames ((runFrames buf).rest ++ chunk)).texts,
       (runFrames ((runFrames buf).rest ++ chunk)).rest,
       (runFrames ((runFrames buf).rest ++ chunk)).dropped⟩ := by
  have main : ∀ (fuel : Nat) (buf chunk : List Nat), buf.length ≤ fuel →
      runFrames (buf ++ chunk) =
        ⟨(runFrames buf).texts ++
           (runFrames ((runFrames buf).rest ++ chunk)).texts,
         (runFrames ((runFrames buf).rest ++ chunk)).rest,
         (runFrames ((runFrames buf).rest ++ chunk)).dropped⟩ := by
    intro fuel
    induction fuel with
    | zero =>
      intro buf chunk h
      have : buf = [] := List.length_eq_zero.mp (Nat.le_zero.mp h)
      subst this
      simp only [List.nil_append]
      have : runFrames ([] : List Nat) = ⟨[], [], none⟩ := rfl
      rw [this]
      simp only [List.nil_append]
    | succ fuel ih =>
      intro buf chunk h
      rcases hd : tryDecodeOne buf with - | - | - | ⟨p, k⟩
      · simp only [runFrames_eq buf, hd, List.nil_append]
      · simp only [runFrames_eq buf, hd, List.nil_append]
      · simp only [runFrames_eq buf, hd, List.nil_append]
      · have hb := tryDecodeOne_frame_bounds hd
        have happ := tryDecodeOne_append_frame chunk hd
        have hdrop : (buf ++ chunk).drop k = buf.drop k ++ chunk :=
          List.drop_append_of_le_length (by omega)
        have hih := ih (buf.drop k) chunk
          (by simp only [List.length_drop]; omega)
        rcases hu : utf8Decode p with - | t
        · rw [runFrames_eq (buf ++ chunk)]
          simp only [happ, hu, hdrop]
          rw [runFrames_eq buf]
          simp only [hd, hu]
          exact hih
        · rw [runFrames_eq (buf ++ chunk)]
          simp only [happ, hu, hdrop]
          rw [runFrames_eq buf]
          simp only [hd, hu, List.cons_append]
          rw [hih]
  exact main buf.length buf chunk (le_refl _)

/-- Feeding two chunks one after the other is the same as feeding their
concatenation. -/
theorem feed_append (s : ConnState) (a b : List Nat) :
    feed (feed s a) b = feed s (a ++ b) := by
  unfold feed
  simp only [← List.append_assoc]
  rw [runFrames_append (s.buf ++ a) b]
  simp [List.append_assoc]

theorem broadcastAux_snd (ex : Option Nat) (wOk : Nat → Bool) :
    ∀ (todo reg : List Nat),
      (broadcastAux ex wOk todo reg).2 =
        todo.filter (fun c => !decide (some c = ex) && wOk c) := by
  intro todo
  induction todo with
  | nil => intro reg; rfl
  | cons c todo ih =>
    intro reg
    unfold broadcastAux
    by_cases he : some c = ex
    · rw [if_pos he, List.filter_cons_of_neg (by simp [he]), ih]
    · rw [if_neg he]
      by_cases hw : wOk c
      · rw [if_pos hw, List.filter_cons_of_pos (by simp [he, hw])]
        simp only [ih]
      · rw [if_neg hw,
          List.filter_cons_of_neg (by simp [he, Bool.eq_false_iff.mpr hw]),
          ih]

theorem broadcastAux_fst (ex : Option Nat) (wOk : Nat → Bool) :
    ∀ (todo reg : List Nat), reg.Nodup →
      (broadcastAux ex wOk todo reg).1 =
        reg.filter
          (fun c => decide (c ∉ todo ∨ some c = ex ∨ wOk c = true)) := by
  intro todo
  induction todo with
  | nil =>
    intro reg _
    simp [broadcastAux]
  | cons c todo ih =>
    intro reg hnd
    unfold broadcastAux
    by_cases he : some c = ex
    · rw [if_pos he, ih reg hnd]
      apply List.filter_congr
      intro x _
      by_cases hx : x = c
      · subst hx
        simp [he]
      · simp [List.mem_cons, hx]
    · rw [if_neg he]
      by_cases hw : wOk c
      · rw [if_pos hw]
        simp only [ih reg hnd]
        apply List.filter_congr
        intro x _
        by_cases hx : x = c
        · subst hx
          simp [hw]
        · simp [List.mem_cons, hx]
      · rw [if_neg hw, ih (reg.erase c) (hnd.erase c)]
        rw [hnd.erase_eq_filter c, List.filter_filter]
        apply List.filter_congr
        intro x _
        by_cases hx : x = c
        · subst hx
          simp [he, hw]
        · simp [List.mem_cons, hx]

theorem broadcastRun_snd (reg : List Nat) (ex : Option Nat) (wOk : Nat → Bool) :
    (broadcastRun reg ex wOk).2 =
      reg.filter (fun c => !decide (some c = ex) && wOk c) :=
  broadcastAux_snd ex wOk reg reg

theorem broadcastRun_fst (reg : List Nat) (ex : Option Nat) (wOk : Nat → Bool)
    (hnd : reg.Nodup) :
    (broadcastRun reg ex wOk).1 =
      reg.filter (fun c => decide (some c = ex) || wOk c) := by
  rw [broadcastRun, broadcastAux_fst ex wOk reg reg hnd]
  apply List.filter_congr
  intro x hx
  simp [hx]

theorem broadcastAux_fst_all_ok (ex : Option Nat) :
    ∀ (todo reg : List Nat),
      (broadcastAux ex (fun _ => true) todo reg).1 = reg := by
  intro todo
  induction todo with
  | nil => intro reg; rfl
  | cons c todo ih =>
    intro reg
    unfold broadcastAux
    by_cases he : some c = ex
    · rw [if_pos he, ih reg]
    · rw [if_neg he, if_pos rfl, ih reg]

theorem utf8Encode_replicate_97 (k : Nat) :
    utf8Encode (List.replicate k 97) = List.replicate k 97 := by
  induction k with
  | zero => rfl
  | succ k ih =>
    rw [List.replicate_succ]
    show (List.map encChar (97 :: List.replicate k 97)).flatten = _
    rw [List.map_cons, List.flatten_cons]
    show encChar 97 ++ utf8Encode (List.replicate k 97) = _
    rw [ih]
    rfl

theorem drop_five (a b c d e : Nat) (l : List Nat) :
    (a :: b :: c :: d :: e :: l).drop 5 = l := rfl

theorem drop_five_add (a b c d e : Nat) (l : List Nat) (n : Nat) :
    (a :: b :: c :: d :: e :: l).drop (5 + n) = l.drop n := by
  rw [show 5 + n = 4 + n + 1 from by omega, List.drop_succ_cons,
    show 4 + n = 3 + n + 1 from by omega, List.drop_succ_cons,
    show 3 + n = 2 + n + 1 from by omega, List.drop_succ_cons,
    show 2 + n = 1 + n + 1 from by omega, List.drop_succ_cons,
    show 1 + n = n + 1 from by omega, List.drop_succ_cons]

theorem tryDecodeOne_frame_bytes (data rest : List Nat)
    (h : data.length ≤ MAX_BYTES) :
    tryDecodeOne (MSG_TEXT :: (toBe32 data.length ++ (data ++ rest))) =
      .frame data (5 + data.length) := by
  have h32 : data.length < 4294967296 := by
    unfold MAX_BYTES at h
    omega
  have hg : hdrLen (MSG_TEXT :: (toBe32 data.length ++ (data ++ rest))) =
      (data.length : Int) := by
    unfold hdrLen parseLenInt
    simp only [toBe32, List.cons_append, List.nil_append, List.getD_cons_succ,
      List.getD_cons_zero]
    rw [be32_toBe32 data.length h32]
  unfold tryDecodeOne
  rw [hg]
  simp only [toBe32, List.cons_append, List.nil_append, List.length_cons,
    List.length_append, List.getD_cons_zero]
  rw [if_neg (by omega), if_neg (by simp), if_neg (by omega),
    if_neg (by rw [Int.toNat_natCast]; omega)]
  rw [Int.toNat_natCast]
  simp only [DecodeOne.frame.injEq]
  refine ⟨?_, trivial⟩
  rw [drop_five, List.take_append_of_le_length (le_refl _), List.take_length]

theorem drop_frame_bytes (data rest : List Nat) :
    (MSG_TEXT :: (toBe32 data.length ++ (data ++ rest))).drop
      (5 + data.length) = rest := by
  simp only [toBe32, List.cons_append, List.nil_append]
  rw [drop_five_add, List.drop_left]

theorem runFrames_frame_bytes (data rest : List Nat)
    (h : data.length ≤ MAX_BYTES) :
    runFrames (MSG_TEXT :: (toBe32 data.length ++ (data ++ rest))) =
      match utf8Decode data with
      | none => runFrames rest
      | some t =>
        ⟨t :: (runFrames rest).texts, (runFrames rest).rest,
         (runFrames rest).dropped⟩ := by
  rw [runFrames_eq, tryDecodeOne_frame_bytes data rest h]
  simp only [drop_frame_bytes]

theorem frame_text_eq_some (t : Text)
    (h : (utf8Encode t).length ≤ MAX_BYTES) :
    frame_text t =
      some (MSG_TEXT :: (toBe32 (utf8Encode t).length ++ utf8Encode t)) := by
  unfold frame_text
  rw [if_neg (by omega)]

theorem frame_text_eq_none (t : Text)
    (h : MAX_BYTES < (utf8Encode t).length) : frame_text t = none := by
  unfold frame_text
  rw [if_pos h]

theorem oversized_replicate_length :
    MAX_BYTES < (utf8Encode (List.replicate (MAX_BYTES + 1) 97)).length := by
  rw [utf8Encode_replicate_97, List.length_replicate]
  omega

/-- Claim C3: for every text whose UTF-8 encoding is non-empty and at most
`MAX_PAYLOAD` bytes, `encode` succeeds, decoding its output as a single
frame consumes exactly `5 + |utf8(t)|` bytes and yields the original
payload, and UTF-8-decoding that payload gives back exactly `t`. -/
theorem frame_roundtrip (t : Text) (hv : ValidText t)
    (h0 : 0 < (utf8Encode t).length)
    (hle : (utf8Encode t).length ≤ MAX_BYTES) :
    frame_text t =
      some (MSG_TEXT :: (toBe32 (utf8Encode t).length ++ utf8Encode t))
    ∧ tryDecodeOne (MSG_TEXT :: (toBe32 (utf8Encode t).length ++ utf8Encode t))
        = DecodeOne.frame (utf8Encode t) (5 + (utf8Encode t).length)
    ∧ utf8Decode (utf8Encode t) = some t
    ∧ runFrames (MSG_TEXT :: (toBe32 (utf8Encode t).length ++ utf8Encode t))
        = ⟨[t], [], none⟩ := by
  have hdec := tryDecodeOne_frame_bytes (utf8Encode t) [] hle
  rw [List.append_nil] at hdec
  have hrun := runFrames_frame_bytes (utf8Encode t) [] hle
  rw [List.append_nil] at hrun
  refine ⟨frame_text_eq_some t hle, hdec, utf8Decode_utf8Encode t hv, ?_⟩
  rw [hrun, utf8Decode_utf8Encode t hv]
  rfl

theorem frame_roundtrip_witness :
    ValidText [104, 105] ∧ 0 < (utf8Encode [104, 105]).length ∧
    runFrames (MSG_TEXT ::
        (toBe32 (utf8Encode [104, 105]).length ++ utf8Encode [104, 105])) =
      ⟨[[104, 105]], [], none⟩ :=
  ⟨by decide, by decide,
   (frame_roundtrip [104, 105] (by decide) (by decide) (by decide)).2.2.2⟩

/-- Claim C5: `frame_text` fails exactly when the UTF-8 encoding exceeds
`MAX_BYTES`; otherwise it emits the type byte `0x01`, the 4-byte
big-endian length, then the payload. -/
theorem frame_text_spec (t : Text) :
    (frame_text t = none ↔ MAX_BYTES < (utf8Encode t).length)
    ∧ ((utf8Encode t).length ≤ MAX_BYTES →
        frame_text t =
          some (MSG_TEXT :: (toBe32 (utf8Encode t).length ++ utf8Encode t))) := by
  by_cases h : MAX_BYTES < (utf8Encode t).length
  · refine ⟨⟨fun _ => h, fun _ => frame_text_eq_none t h⟩, fun hle => ?_⟩
    omega
  · refine ⟨⟨fun hc => ?_, fun hc => absurd hc h⟩, fun _ =>
      frame_text_eq_some t (by omega)⟩
    rw [frame_text_eq_some t (by omega)] at hc
    exact absurd hc (by simp)

theorem frame_text_spec_witness :
    frame_text [104] =
      some (MSG_TEXT :: (toBe32 (utf8Encode [104]).length ++
        utf8Encode [104])) :=
  (frame_text_spec [104]).2 (by decide)

/-- Claim C7: a complete frame with valid type and length whose payload is
not valid UTF-8 is consumed from the front of the buffer, delivers
nothing, does not drop the connection, and processing continues with the
remaining bytes. -/
theorem invalid_utf8_skipped (p rest : List Nat)
    (hlen : p.length ≤ MAX_BYTES) (hbad : utf8Decode p = none) :
    runFrames (MSG_TEXT :: (toBe32 p.length ++ (p ++ rest))) =
      runFrames rest := by
  rw [runFrames_frame_bytes p rest hlen]
  simp only [hbad]

theorem invalid_utf8_skipped_witness :
    utf8Decode [255] = none ∧
    runFrames (MSG_TEXT :: (toBe32 ([255] : List Nat).length ++
        ([255] ++ [MSG_TEXT, 0, 0, 0, 0]))) =
      runFrames [MSG_TEXT, 0, 0, 0, 0] :=
  ⟨by decide,
   invalid_utf8_skipped [255] [MSG_TEXT, 0, 0, 0, 0] (by decide) (by decide)⟩

/-- Claim C9: the unsigned big-endian parse of the 4-byte length field is
always non-negative, so the `length < 0 or length > MAX_BYTES` guard
fires exactly on oversized lengths: a `badLength` drop always means the
parsed length exceeded `MAX_BYTES`. -/
theorem negative_length_unreachable (b0 b1 b2 b3 : Nat) (buf : List Nat) :
    0 ≤ parseLenInt b0 b1 b2 b3
    ∧ ((parseLenInt b0 b1 b2 b3 < 0 ∨
        (MAX_BYTES : Int) < parseLenInt b0 b1 b2 b3) ↔
        (MAX_BYTES : Int) < parseLenInt b0 b1 b2 b3)
    ∧ (tryDecodeOne buf = DecodeOne.badLength →
        (MAX_BYTES : Int) < hdrLen buf) := by
  have h0 : ∀ c0 c1 c2 c3 : Nat, (0 : Int) ≤ parseLenInt c0 c1 c2 c3 := by
    intro c0 c1 c2 c3
    unfold parseLenInt
    omega
  refine ⟨h0 b0 b1 b2 b3,
    ⟨fun hor => hor.resolve_left (by have := h0 b0 b1 b2 b3; omega),
     fun hgt => Or.inr hgt⟩, ?_⟩
  intro h
  have hh : (0 : Int) ≤ hdrLen buf := h0 _ _ _ _
  unfold tryDecodeOne at h
  split at h
  · simp at h
  · split at h
    · simp at h
    · split at h
      case isTrue hcond => exact hcond.resolve_left (by omega)
      case isFalse => split at h <;> simp at h

theorem negative_length_unreachable_witness :
    (MAX_BYTES : Int) < hdrLen [MSG_TEXT, 255, 255, 255, 255] :=
  (negative_length_unreachable 0 0 0 0
    [MSG_TEXT, 255, 255, 255, 255]).2.2 (by decide)

/-- Claim C4: feeding a byte sequence to the frame decoder one byte at a
time (running the decode loop on the growing buffer after every byte)
produces the same delivered texts, the same final buffer residue, and the
same error outcome as appending the whole sequence at once and running
the decode loop once. -/
theorem incremental_equals_batch (bytes : List Nat) :
    bytes.foldl (fun s b => feed s [b]) initConn = feed initConn bytes := by
  induction bytes using List.reverseRecOn with
  | nil => rfl
  | append_singleton ys b ih =>
    rw [List.foldl_append, ih]
    show feed (feed initConn ys) [b] = _
    rw [feed_append]

/-- Claim C1: on a decoded peer frame with text `X` the event loop sets
`_last_sent_from_pc` to `X` before invoking the clipboard write (the first
two events, in order), and any watcher tick that then reads `X` while
`_last_sent_from_pc` is still `X` enqueues nothing on the
pending-broadcast queue (and completes normally), so a peer echo is never
re-broadcast as a fresh local change. -/
theorem loop_prevention (wOk : Nat → Bool) (s : ServerState) (sender : Nat)
    (X : Text) (s2 : ServerState) (h : s2.last_sent_from_pc = some X) :
    (on_text_from_client wOk s sender X).2.take 2 =
      [Ev.setLastSentFromPc X, Ev.clipWrite X]
    ∧ (∀ s', (on_text_from_client wOk s sender X).1 = some s' →
        s'.last_sent_from_pc = some X)
    ∧ (clipboard_watch_tick s2 (some X)).1.to_broadcast = s2.to_broadcast
    ∧ (clipboard_watch_tick s2 (some X)).2 = true := by
  refine ⟨?_, ?_, ?_, ?_⟩
  · unfold on_text_from_client
    rcases hf : frame_text X with - | bs
    · rfl
    · show ([Ev.setLastSentFromPc X, Ev.clipWrite X] ++ _).take 2 = _
      rw [show (2 : Nat) =
        ([Ev.setLastSentFromPc X, Ev.clipWrite X]).length from rfl,
        List.take_left]
  · intro s' hs'
    unfold on_text_from_client at hs'
    rcases hf : frame_text X with - | bs <;> rw [hf] at hs'
    · simp at hs'
    · simp only [Option.some.injEq] at hs'
      rw [← hs']
  · simp only [clipboard_watch_tick]
    by_cases hp : s2.last_polled ≠ some X
    · rw [if_pos hp, if_neg (by simp [h])]
    · rw [if_neg hp]
  · simp only [clipboard_watch_tick]
    by_cases hp : s2.last_polled ≠ some X
    · rw [if_pos hp, if_neg (by simp [h])]
    · rw [if_neg hp]

theorem loop_prevention_witness :
    (on_text_from_client (fun _ => true) ⟨[], none, none, []⟩ 0 [104]).2.take 2
      = [Ev.setLastSentFromPc [104], Ev.clipWrite [104]]
    ∧ (clipboard_watch_tick ⟨[], none, some [104], []⟩
        (some [104])).1.to_broadcast = [] :=
  ⟨(loop_prevention (fun _ => true) ⟨[], none, none, []⟩ 0 [104]
      ⟨[], none, some [104], []⟩ rfl).1,
   (loop_prevention (fun _ => true) ⟨[], none, none, []⟩ 0 [104]
      ⟨[], none, some [104], []⟩ rfl).2.2.1⟩

/-- Claim C2 (amended): on a watcher tick that reads text `t` whose UTF-8
encoding fits in `MAX_BYTES`, a frame for `t` is appended to the
pending-broadcast queue exactly when `t` differs from `last_polled` (or it
is unset), differs from `last_sent_from_pc`, and is non-empty; and when it
is enqueued, `last_sent_from_pc` is updated to `t`. -/
theorem watcher_enqueue_iff (s : ServerState) (t : Text)
    (hsize : (utf8Encode t).length ≤ MAX_BYTES) :
    ((clipboard_watch_tick s (some t)).1.to_broadcast =
      if s.last_polled ≠ some t ∧ some t ≠ s.last_sent_from_pc ∧ t ≠ []
      then s.to_broadcast ++
        [MSG_TEXT :: (toBe32 (utf8Encode t).length ++ utf8Encode t)]
      else s.to_broadcast)
    ∧ ((s.last_polled ≠ some t ∧ some t ≠ s.last_sent_from_pc ∧ t ≠ []) →
        (clipboard_watch_tick s (some t)).1.last_sent_from_pc = some t) := by
  have hq : queue_from_pc s t =
      ({ s with last_sent_from_pc := some t,
                to_broadcast := s.to_broadcast ++
                  [MSG_TEXT :: (toBe32 (utf8Encode t).length ++
                    utf8Encode t)] }, true) := by
    unfold queue_from_pc
    rw [frame_text_eq_some t hsize]
  simp only [clipboard_watch_tick]
  by_cases h1 : s.last_polled ≠ some t
  · rw [if_pos h1]
    by_cases h2 : some t ≠ s.last_sent_from_pc
    · rw [if_pos h2]
      by_cases h3 : t ≠ []
      · rw [if_pos h3, hq]
        have hcond : s.last_polled ≠ some t ∧ some t ≠ s.last_sent_from_pc ∧
            t ≠ [] := ⟨h1, h2, h3⟩
        refine ⟨?_, fun _ => rfl⟩
        rw [if_pos hcond]
        rfl
      · rw [if_neg h3]
        exact ⟨by rw [if_neg (by tauto)], fun hc => absurd hc.2.2 h3⟩
    · rw [if_neg h2]
      exact ⟨by rw [if_neg (by tauto)], fun hc => absurd hc.2.1 h2⟩
  · rw [if_neg h1]
    exact ⟨by rw [if_neg (by tauto)], fun hc => absurd hc.1 h1⟩

theorem watcher_enqueue_iff_witness :
    (clipboard_watch_tick ⟨[], none, none, []⟩ (some [104])).1.to_broadcast =
      [MSG_TEXT :: (toBe32 (utf8Encode [104]).length ++ utf8Encode [104])] := by
  have := (watcher_enqueue_iff ⟨[], none, none, []⟩ [104] (by decide)).1
  rw [if_pos ⟨by simp, by simp, by simp⟩] at this
  exact this

/-- A watcher tick on which `frame_text` raises inside `queue_from_pc`:
all three enqueue conditions hold, `_last_sent_from_pc` is assigned, but
nothing is enqueued, `_last_polled` is not updated, and the tick dies
(the exception escapes the thread body). -/
theorem watcher_tick_raise (s : ServerState) (t : Text)
    (hc1 : s.last_polled ≠ some t) (hc2 : some t ≠ s.last_sent_from_pc)
    (hc3 : t ≠ []) (hf : frame_text t = none) :
    (clipboard_watch_tick s (some t)).1.to_broadcast = s.to_broadcast
    ∧ (clipboard_watch_tick s (some t)).1.last_polled = s.last_polled
    ∧ (clipboard_watch_tick s (some t)).2 = false := by
  have hq : queue_from_pc s t =
      ({ s with last_sent_from_pc := some t }, false) := by
    unfold queue_from_pc
    rw [hf]
  simp only [clipboard_watch_tick]
  rw [if_pos hc1, if_pos hc2, if_pos hc3, hq]
  exact ⟨rfl, rfl, rfl⟩

/-- Counterexample to claim C2 as stated: for a clipboard text larger than
`MAX_BYTES` all three enqueue conditions hold, yet nothing is enqueued —
`frame_text` raises inside `queue_from_pc` (after `_last_sent_from_pc` was
already assigned), so the queue is left unchanged and the tick dies. -/
theorem watcher_enqueue_iff_oversized :
    ((⟨[], none, none, []⟩ : ServerState).last_polled ≠
        some (List.replicate (MAX_BYTES + 1) 97)
      ∧ some (List.replicate (MAX_BYTES + 1) 97) ≠
        (⟨[], none, none, []⟩ : ServerState).last_sent_from_pc
      ∧ List.replicate (MAX_BYTES + 1) 97 ≠ [])
    ∧ (clipboard_watch_tick ⟨[], none, none, []⟩
        (some (List.replicate (MAX_BYTES + 1) 97))).1.to_broadcast = []
    ∧ (clipboard_watch_tick ⟨[], none, none, []⟩
        (some (List.replicate (MAX_BYTES + 1) 97))).2 = false := by
  have h1 : (⟨[], none, none, []⟩ : ServerState).last_polled ≠
      some (List.replicate (MAX_BYTES + 1) 97) :=
    fun h => Option.noConfusion h
  have h2 : some (List.replicate (MAX_BYTES + 1) 97) ≠
      (⟨[], none, none, []⟩ : ServerState).last_sent_from_pc :=
    fun h => Option.noConfusion h
  have h3 : List.replicate (MAX_BYTES + 1) 97 ≠ [] := by
    rw [List.replicate_succ]
    exact List.cons_ne_nil _ _
  have hf : frame_text (List.replicate (MAX_BYTES + 1) 97) = none :=
    frame_text_eq_none _ oversized_replicate_length
  exact ⟨⟨h1, h2, h3⟩, (watcher_tick_raise _ _ h1 h2 h3 hf).1,
    (watcher_tick_raise _ _ h1 h2 h3 hf).2.2⟩

/-- Claim C8 (amended): after a watcher tick that reads text `t` whose
UTF-8 encoding fits in `MAX_BYTES`, `last_polled` equals `t` — including
ticks whose enqueue was suppressed; a tick whose read failed changes
nothing. -/
theorem watcher_last_observed (s : ServerState) (t : Text)
    (hsize : (utf8Encode t).length ≤ MAX_BYTES) :
    (clipboard_watch_tick s (some t)).1.last_polled = some t
    ∧ clipboard_watch_tick s none = (s, true) := by
  refine ⟨?_, rfl⟩
  simp only [clipboard_watch_tick]
  by_cases h1 : s.last_polled ≠ some t
  · rw [if_pos h1]
    by_cases h2 : some t ≠ s.last_sent_from_pc
    · rw [if_pos h2]
      by_cases h3 : t ≠ []
      · rw [if_pos h3]
        have hq : (queue_from_pc s t).2 = true := by
          unfold queue_from_pc
          rw [frame_text_eq_some t hsize]
        rw [if_pos hq]
      · rw [if_neg h3]
    · rw [if_neg h2]
  · rw [if_neg h1]
    exact not_not.mp h1

theorem watcher_last_observed_witness :
    (clipboard_watch_tick ⟨[], none, none, []⟩ (some [104])).1.last_polled =
      some [104] :=
  (watcher_last_observed ⟨[], none, none, []⟩ [104] (by decide)).1

/-- Counterexample to claim C8 as stated: a successful read of an
oversized text crashes the tick inside `queue_from_pc` before
`_last_polled` is assigned, so `last_polled` does not equal the text just
read. -/
theorem watcher_last_observed_oversized :
    (clipboard_watch_tick ⟨[], none, none, []⟩
      (some (List.replicate (MAX_BYTES + 1) 97))).1.last_polled ≠
      some (List.replicate (MAX_BYTES + 1) 97) := by
  have h1 : (⟨[], none, none, []⟩ : ServerState).last_polled ≠
      some (List.replicate (MAX_BYTES + 1) 97) :=
    fun h => Option.noConfusion h
  have h2 : some (List.replicate (MAX_BYTES + 1) 97) ≠
      (⟨[], none, none, []⟩ : ServerState).last_sent_from_pc :=
    fun h => Option.noConfusion h
  have h3 : List.replicate (MAX_BYTES + 1) 97 ≠ [] := by
    rw [List.replicate_succ]
    exact List.cons_ne_nil _ _
  have hf : frame_text (List.replicate (MAX_BYTES + 1) 97) = none :=
    frame_text_eq_none _ oversized_replicate_length
  have hlp := (watcher_tick_raise _ _ h1 h2 h3 hf).2.1
  intro hcontra
  rw [hlp] at hcontra
  exact Option.noConfusion hcontra

/-- Claim C6: `_broadcast` iterates over a snapshot of the registry; every
connection in the snapshot other than the excluded sender whose write
succeeds receives the payload exactly once; a failing write removes
exactly that connection from the registry and iteration continues. -/
theorem broadcast_isolation (reg : List Nat) (ex : Option Nat)
    (wOk : Nat → Bool) (hnd : reg.Nodup) :
    (broadcastRun reg ex wOk).2 =
      reg.filter (fun c => !decide (some c = ex) && wOk c)
    ∧ (broadcastRun reg ex wOk).1 =
      reg.filter (fun c => decide (some c = ex) || wOk c)
    ∧ ∀ c ∈ reg, some c ≠ ex → wOk c = true →
        (broadcastRun reg ex wOk).2.count c = 1 := by
  refine ⟨broadcastRun_snd reg ex wOk, broadcastRun_fst reg ex wOk hnd, ?_⟩
  intro c hc hex hok
  rw [broadcastRun_snd]
  exact List.count_eq_one_of_mem (hnd.filter _)
    (List.mem_filter.mpr ⟨hc, by simp [hex, hok]⟩)

theorem broadcast_isolation_witness :
    (broadcastRun [0, 1, 2] (some 0) (fun c => decide (c ≠ 1))).2.count 2
      = 1 :=
  (broadcast_isolation [0, 1, 2] (some 0) (fun c => decide (c ≠ 1))
    (by decide)).2.2 2 (by decide) (by decide) (by decide)

/-- Claim C10: a well-formed peer frame with empty payload is fully
processed — the frame decodes and delivers the empty text,
`_last_sent_from_pc` is set to it, the clipboard write is invoked with it,
and the empty frame is re-broadcast to every other live connection —
while both the watcher path and the initial push of `_accept` suppress
empty text. -/
theorem empty_text_asymmetry (s : ServerState) (sender : Nat)
    (s2 : ServerState) (sendOk : Bool) :
    runFrames [MSG_TEXT, 0, 0, 0, 0] = ⟨[[]], [], none⟩
    ∧ (on_text_from_client (fun _ => true) s sender []).1 =
      some { s with last_sent_from_pc := some [] }
    ∧ (on_text_from_client (fun _ => true) s sender []).2 =
      [Ev.setLastSentFromPc [], Ev.clipWrite []] ++
        (s.clients.filter (fun c => !decide (c = sender))).map
          (fun c => Ev.send c [MSG_TEXT, 0, 0, 0, 0])
    ∧ (clipboard_watch_tick s2 (some [])).1.to_broadcast = s2.to_broadcast
    ∧ initial_push (some []) sendOk = PushAction.nothing := by
  have hf : frame_text [] = some [MSG_TEXT, 0, 0, 0, 0] := rfl
  refine ⟨by decide, ?_, ?_, ?_, rfl⟩
  · unfold on_text_from_client
    rw [hf]
    simp only [Option.some.injEq]
    rw [show (broadcastRun s.clients (some sender) (fun _ => true)).1 =
      s.clients from broadcastAux_fst_all_ok (some sender) s.clients s.clients]
  · unfold on_text_from_client
    rw [hf]
    simp only [List.cons_append, List.nil_append, List.cons.injEq, true_and]
    rw [broadcastRun_snd]
    congr 1
    apply List.filter_congr
    intro x _
    simp
  · simp only [clipboard_watch_tick]
    by_cases h1 : s2.last_polled ≠ some []
    · rw [if_pos h1]
      by_cases h2 : some ([] : Text) ≠ s2.last_sent_from_pc
      · rw [if_pos h2, if_neg (by simp)]
      · rw [if_neg h2]
    · rw [if_neg h1]

end ClipBridge

